import Mathlib

/-!
Shallow embedding of `src/main.py` (eddy-current diffusion solver) and
verification of the specification's claims about it.

The script integrates the 2-D magnetic diffusion equation on a fixed
100×100 grid, once per material, with sinusoidal Dirichlet boundary
forcing, derives the induced current density by finite differences,
accumulates Ohmic losses, and captures one current-density snapshot near
the quadrature phase.  Machine floats are modelled by real numbers;
Python's truncating `int()` and nonnegative `%` are modelled explicitly.
-/

namespace Foucault

/-- Physical extent in x, `Lx = 0.15` (main.py line 14). -/
noncomputable def Lx : ℝ := 0.15

/-- Physical extent in y, `Ly = 0.15` (main.py line 14). -/
noncomputable def Ly : ℝ := 0.15

/-- Grid size in x, `Nx = 100` (main.py line 15). -/
abbrev Nx : ℕ := 100

/-- Grid size in y, `Ny = 100` (main.py line 15). -/
abbrev Ny : ℕ := 100

/-- Grid spacing `dx = Lx/Nx` (main.py line 16). -/
noncomputable def dx : ℝ := Lx / Nx

/-- Grid spacing `dy = Ly/Ny` (main.py line 16). -/
noncomputable def dy : ℝ := Ly / Ny

/-- Vacuum permeability `mu0 = 4·π·1e-7` (main.py line 17). -/
noncomputable def mu0 : ℝ := 4 * Real.pi * 1e-7

/-- Forcing frequency `f = 60.0` (main.py line 18). -/
noncomputable def f : ℝ := 60

/-- Angular frequency `omega = 2·π·f` (main.py line 19). -/
noncomputable def omega : ℝ := 2 * Real.pi * f

/-- Forcing amplitude `B0 = 0.1` (main.py line 20). -/
noncomputable def B0 : ℝ := 0.1

/-- One material of the catalog: conductivity and relative permeability
(main.py lines 7-11; the plotting colour is irrelevant to the core). -/
structure Material where
  sigma : ℝ
  mu_r : ℝ

/-- Aluminium entry of the catalog (main.py line 8). -/
noncomputable def aluminio : Material := ⟨3.5e7, 1⟩

/-- Copper entry of the catalog (main.py line 9). -/
noncomputable def cobre : Material := ⟨5.8e7, 1⟩

/-- Iron entry of the catalog (main.py line 10). -/
noncomputable def ferro : Material := ⟨1.0e7, 1000⟩

/-- Permeability `mu = mu0 * mu_r` (main.py line 31). -/
noncomputable def mu (m : Material) : ℝ := mu0 * m.mu_r

/-- Diffusivity `alpha = 1/(mu*sigma)` (main.py line 32). -/
noncomputable def alpha (m : Material) : ℝ := 1 / (mu m * m.sigma)

/-- Time step `dt = 0.2 * mu * sigma * min(dx,dy)**2` (main.py line 33). -/
noncomputable def dt (m : Material) : ℝ := 0.2 * mu m * m.sigma * min dx dy ^ 2

/-- Integration horizon `T = 1.0/f` (main.py line 34). -/
noncomputable def T : ℝ := 1 / f

/-- Python's float `%` for a positive modulus: `x - y*⌊x/y⌋`. -/
noncomputable def pyMod (x y : ℝ) : ℝ := x - y * ⌊x / y⌋

open Classical in
/-- Python's `int()` on a float: truncation toward zero. -/
noncomputable def pyInt (x : ℝ) : ℤ := if 0 ≤ x then ⌊x⌋ else ⌈x⌉

/-- Step count `n_steps = int(T/dt)` (main.py line 35). -/
noncomputable def n_steps (m : Material) : ℤ := pyInt (T / dt m)

/-- The scalar field grid `Bz` (and every grid of the same shape). -/
abbrev Grid := Fin Nx → Fin Ny → ℝ

/-- Border index set of the grid: first/last row or column, the cells
overwritten by `Bz[0,:] = Bz[-1,:] = Bz[:,0] = Bz[:,-1] = Bext`
(main.py line 52). -/
def isBorder (i : Fin Nx) (j : Fin Ny) : Prop :=
  i.val = 0 ∨ i.val = Nx - 1 ∨ j.val = 0 ∨ j.val = Ny - 1

instance (i : Fin Nx) (j : Fin Ny) : Decidable (isBorder i j) := by
  unfold isBorder; infer_instance

/-- 5-point Laplacian with wraparound neighbours, `np.roll` based
(main.py lines 46-49): `np.roll(Bz,-1,0)[i] = Bz[(i+1) % Nx]` etc. -/
noncomputable def lap (B : Grid) : Grid := fun i j =>
  (B (i + 1) j + B (i - 1) j - 2 * B i j) / dx ^ 2 +
  (B i (j + 1) + B i (j - 1) - 2 * B i j) / dy ^ 2

/-- Overwrite all four borders with the forcing value (main.py line 52). -/
def applyBorder (Bext : ℝ) (B : Grid) : Grid := fun i j =>
  if isBorder i j then Bext else B i j

/-- `np.gradient(B, h, axis=0)` with default first-order one-sided
differences at the edges and centred differences inside. -/
noncomputable def grad0 (B : Grid) (h : ℝ) : Grid := fun i j =>
  if i.val = 0 then (B (i + 1) j - B i j) / h
  else if i.val = Nx - 1 then (B i j - B (i - 1) j) / h
  else (B (i + 1) j - B (i - 1) j) / (2 * h)

/-- `np.gradient(B, h, axis=1)` with default first-order one-sided
differences at the edges and centred differences inside. -/
noncomputable def grad1 (B : Grid) (h : ℝ) : Grid := fun i j =>
  if j.val = 0 then (B i (j + 1) - B i j) / h
  else if j.val = Ny - 1 then (B i j - B i (j - 1)) / h
  else (B i (j + 1) - B i (j - 1)) / (2 * h)

/-- `Jx = -np.gradient(Bz, dy, axis=1) / mu` (main.py line 54). -/
noncomputable def Jx (m : Material) (B : Grid) : Grid := fun i j =>
  -(grad1 B dy i j) / mu m

/-- `Jy = np.gradient(Bz, dx, axis=0) / mu` (main.py line 55). -/
noncomputable def Jy (m : Material) (B : Grid) : Grid := fun i j =>
  grad0 B dx i j / mu m

/-- Per-run mutable state of the loop body (main.py lines 37-62):
the field, the loss accumulator, the optional snapshot (`snap_Jx`,
`snap_Jy` together with the `snap_ok` flag), the mid-column history and
the elapsed time. -/
structure State where
  Bz : Grid
  losses : Grid
  snap : Option (Grid × Grid)
  hist : List (Fin Nx → ℝ)
  t : ℝ

/-- Initial state of each material's run (main.py lines 37-42). -/
noncomputable def init : State :=
  { Bz := fun _ _ => 0
    losses := fun _ _ => 0
    snap := none
    hist := []
    t := 0 }

/-- The snapshot trigger `abs((phase % (2π)) - π/2) < omega*dt*2`
at phase `omega * t` (main.py line 59). -/
noncomputable def snapCond (m : Material) (t : ℝ) : Prop :=
  |pyMod (omega * t) (2 * Real.pi) - Real.pi / 2| < omega * dt m * 2

open Classical in
/-- One iteration of the stepping loop (main.py lines 44-62): Laplacian
of the current field, explicit update with the forcing derivative at
`phase = omega*t`, Dirichlet border overwrite with `B0*sin(phase)`,
current density from the overwritten field, loss accumulation, history
recording, one-shot snapshot capture, and `t += dt`. -/
noncomputable def step (m : Material) (s : State) : State :=
  let phase := omega * s.t
  let lapB := lap s.Bz
  let B1 : Grid := fun i j =>
    s.Bz i j + dt m * (alpha m * lapB i j + B0 * omega * Real.cos phase)
  let Bext := B0 * Real.sin phase
  let B2 := applyBorder Bext B1
  let jx := Jx m B2
  let jy := Jy m B2
  let losses2 : Grid := fun i j =>
    s.losses i j + (jx i j ^ 2 + jy i j ^ 2) * dt m / m.sigma
  let snap2 := if s.snap = none ∧ snapCond m s.t then some (jx, jy) else s.snap
  { Bz := B2
    losses := losses2
    snap := snap2
    hist := s.hist ++ [fun i => B2 i (50 : Fin Ny)]
    t := s.t + dt m }

/-- State after `n` iterations of the loop from the initial state. -/
noncomputable def stateAt (m : Material) (n : ℕ) : State := (step m)^[n] init

/-- A full run: exactly `n_steps` iterations, `for step in range(n_steps)`
(main.py line 44). -/
noncomputable def run (m : Material) : State := stateAt m (n_steps m).toNat

lemma dx_pos : 0 < dx := by unfold dx Lx; norm_num

lemma dy_pos : 0 < dy := by unfold dy Ly; norm_num

lemma mu0_pos : 0 < mu0 := by
  unfold mu0
  have := Real.pi_pos
  nlinarith

lemma dt_nonneg (m : Material) (hσ : 0 ≤ m.sigma) (hμ : 0 ≤ m.mu_r) :
    0 ≤ dt m := by
  have h0 := mu0_pos
  have hmin : 0 ≤ min dx dy ^ 2 := sq_nonneg _
  unfold dt mu
  have : 0 ≤ mu0 * m.mu_r * m.sigma := mul_nonneg (mul_nonneg h0.le hμ) hσ
  nlinarith

lemma dt_pos (m : Material) (hσ : 0 < m.sigma) (hμ : 0 < m.mu_r) :
    0 < dt m := by
  have h0 := mu0_pos
  have hmin : 0 < min dx dy ^ 2 := by
    have := lt_min dx_pos dy_pos
    positivity
  unfold dt mu
  have : 0 < mu0 * m.mu_r * m.sigma := mul_pos (mul_pos h0 hμ) hσ
  nlinarith

lemma T_pos : 0 < T := by unfold T f; norm_num

/-- C1: every time step computes the wraparound 5-point Laplacian of the
current field, adds `dt*(alpha*Laplacian + B0*omega*cos(omega*t))` with
`t` taken at the start of the step, then overwrites the borders with the
Dirichlet value and advances `t` by `dt`; the initial field is zero. -/
theorem spec_step_structure (m : Material) (s : State) (i : Fin Nx) (j : Fin Ny) :
    init.Bz i j = 0 ∧
    (step m s).Bz i j =
      (if isBorder i j then B0 * Real.sin (omega * s.t)
       else s.Bz i j + dt m * (alpha m *
         ((s.Bz (i + 1) j + s.Bz (i - 1) j - 2 * s.Bz i j) / dx ^ 2 +
          (s.Bz i (j + 1) + s.Bz i (j - 1) - 2 * s.Bz i j) / dy ^ 2) +
         B0 * omega * Real.cos (omega * s.t))) ∧
    (step m s).t = s.t + dt m := by
  refine ⟨rfl, ?_, rfl⟩
  simp only [step, applyBorder, lap]

/-- C3: after any step, every border cell of the field holds exactly the
Dirichlet forcing value `B0*sin(omega*t)` with `t` taken at the start of
that step: the overwrite runs after the interior update and overrides
whatever the stencil wrote there. -/
theorem spec_border_dirichlet (m : Material) (s : State) (i : Fin Nx) (j : Fin Ny)
    (hb : isBorder i j) :
    (step m s).Bz i j = B0 * Real.sin (omega * s.t) := by
  simp only [step, applyBorder]
  rw [if_pos hb]

/-- Witness for C3 at a concrete border cell of a concrete state. -/
theorem spec_border_dirichlet_witness :
    (step ferro init).Bz 0 0 = B0 * Real.sin (omega * init.t) :=
  spec_border_dirichlet ferro init 0 0 (Or.inl rfl)

/-- C2: the time step is `dt = 0.2·mu·sigma·min(dx,dy)²` with
`mu = mu0·mu_r`, the step count is `n_steps = floor(T/dt)` with `T = 1/f`,
and a run is exactly `n_steps` iterations of the step function — a
fixed-duration integration with no convergence check. -/
theorem spec_dt_nsteps (m : Material) (hσ : 0 < m.sigma) (hμ : 0 < m.mu_r) :
    dt m = 0.2 * (mu0 * m.mu_r) * m.sigma * min dx dy ^ 2 ∧
    T = 1 / f ∧
    n_steps m = ⌊T / dt m⌋ ∧
    run m = (step m)^[(n_steps m).toNat] init := by
  refine ⟨by unfold dt mu; ring, rfl, ?_, rfl⟩
  unfold n_steps pyInt
  rw [if_pos (div_nonneg T_pos.le (dt_pos m hσ hμ).le)]

/-- Witness for C2 at the iron material. -/
theorem spec_dt_nsteps_witness :
    (0:ℝ) < ferro.sigma ∧ (0:ℝ) < ferro.mu_r ∧
    (dt ferro = 0.2 * (mu0 * ferro.mu_r) * ferro.sigma * min dx dy ^ 2 ∧
     T = 1 / f ∧
     n_steps ferro = ⌊T / dt ferro⌋ ∧
     run ferro = (step ferro)^[(n_steps ferro).toNat] init) :=
  ⟨by norm_num [ferro], by norm_num [ferro],
   spec_dt_nsteps ferro (by norm_num [ferro]) (by norm_num [ferro])⟩

/-- C5: the loss accumulator starts at zero, each step adds the
element-wise non-negative quantity `(Jx² + Jy²)·dt/sigma`, and the
accumulator is therefore element-wise non-decreasing across steps. -/
theorem spec_loss_monotone (m : Material) (s : State) (i : Fin Nx) (j : Fin Ny)
    (hσ : 0 < m.sigma) (hμ : 0 ≤ m.mu_r) :
    init.losses i j = 0 ∧
    (step m s).losses i j = s.losses i j +
      (Jx m ((step m s).Bz) i j ^ 2 + Jy m ((step m s).Bz) i j ^ 2) * dt m / m.sigma ∧
    s.losses i j ≤ (step m s).losses i j := by
  refine ⟨rfl, rfl, ?_⟩
  have hinc : 0 ≤ (Jx m ((step m s).Bz) i j ^ 2 + Jy m ((step m s).Bz) i j ^ 2) * dt m / m.sigma :=
    div_nonneg (mul_nonneg (add_nonneg (sq_nonneg _) (sq_nonneg _))
      (dt_nonneg m hσ.le hμ)) hσ.le
  calc s.losses i j ≤ s.losses i j +
      (Jx m ((step m s).Bz) i j ^ 2 + Jy m ((step m s).Bz) i j ^ 2) * dt m / m.sigma :=
        le_add_of_nonneg_right hinc
    _ = (step m s).losses i j := rfl

/-- Witness for C5 at the iron material, the initial state and cell (1,1). -/
theorem spec_loss_monotone_witness :
    init.losses 1 1 = 0 ∧
    (step ferro init).losses 1 1 = init.losses 1 1 +
      (Jx ferro ((step ferro init).Bz) 1 1 ^ 2 + Jy ferro ((step ferro init).Bz) 1 1 ^ 2) *
        dt ferro / ferro.sigma ∧
    init.losses 1 1 ≤ (step ferro init).losses 1 1 :=
  spec_loss_monotone ferro init 1 1 (by norm_num [ferro]) (by norm_num [ferro])

/-- C6: the current density is `Jx = -(∂Bz/∂y)/mu`, `Jy = (∂Bz/∂x)/mu`
with centred differences over `(dx, dy)` in the interior and first-order
one-sided differences at the domain edges. -/
theorem spec_current_density (m : Material) (B : Grid) (i : Fin Nx) (j : Fin Ny)
    (hi0 : 0 < i.val) (hi1 : i.val < 99) (hj0 : 0 < j.val) (hj1 : j.val < 99) :
    Jx m B i j = -((B i (j + 1) - B i (j - 1)) / (2 * dy)) / mu m ∧
    Jy m B i j = (B (i + 1) j - B (i - 1) j) / (2 * dx) / mu m ∧
    Jx m B i 0 = -((B i 1 - B i 0) / dy) / mu m ∧
    Jx m B i 99 = -((B i 99 - B i 98) / dy) / mu m ∧
    Jy m B 0 j = (B 1 j - B 0 j) / dx / mu m ∧
    Jy m B 99 j = (B 99 j - B 98 j) / dx / mu m := by
  have h99 : ((99 : Fin 100)).val = 99 := rfl
  refine ⟨?_, ?_, ?_, ?_, ?_, ?_⟩
  · simp [Jx, grad1, hj0.ne', Nat.ne_of_lt hj1]
  · simp [Jy, grad0, hi0.ne', Nat.ne_of_lt hi1]
  · simp [Jx, grad1]
  · simp [Jx, grad1, h99]
  · simp [Jy, grad0]
  · simp [Jy, grad0, h99]

/-- Witness for C6 at the iron material, the zero grid and cell (1,1). -/
theorem spec_current_density_witness :
    Jx ferro init.Bz 1 1 = -((init.Bz 1 (1 + 1) - init.Bz 1 (1 - 1)) / (2 * dy)) / mu ferro ∧
    Jy ferro init.Bz 1 1 = (init.Bz (1 + 1) 1 - init.Bz (1 - 1) 1) / (2 * dx) / mu ferro ∧
    Jx ferro init.Bz 1 0 = -((init.Bz 1 1 - init.Bz 1 0) / dy) / mu ferro ∧
    Jx ferro init.Bz 1 99 = -((init.Bz 1 99 - init.Bz 1 98) / dy) / mu ferro ∧
    Jy ferro init.Bz 0 1 = (init.Bz 1 1 - init.Bz 0 1) / dx / mu ferro ∧
    Jy ferro init.Bz 99 1 = (init.Bz 99 1 - init.Bz 98 1) / dx / mu ferro :=
  spec_current_density ferro init.Bz 1 1 (by decide) (by decide) (by decide) (by decide)

lemma omega_eq : omega = 120 * Real.pi := by unfold omega f; ring

lemma dt_ferro_eq : dt ferro = 1.8e-3 * Real.pi := by
  have hxy : dx = dy := rfl
  rw [dt, hxy, min_self]
  unfold mu mu0 ferro dy Ly
  norm_num
  ring

/-- The snapshot window condition holds at phase zero for the iron
material, because its `omega*dt*2` tolerance exceeds `π/2`. -/
lemma snapCond_ferro_zero : snapCond ferro 0 := by
  unfold snapCond pyMod
  rw [mul_zero, zero_div, Int.floor_zero]
  rw [omega_eq, dt_ferro_eq]
  have h3 := Real.pi_gt_three
  have hp := Real.pi_pos
  rw [abs_of_nonpos (by nlinarith)]
  nlinarith

/-- C10: within a step, the loss increment and the captured snapshot are
computed from the field after that step's Dirichlet border overwrite
(the field stored in the resulting state), whose border cells equal
`B0*sin(omega*t)` exactly. -/
theorem spec_derived_from_post_overwrite (m : Material) (s : State)
    (i : Fin Nx) (j : Fin Ny)
    (hsnap : s.snap = none) (hcond : snapCond m s.t) (hb : isBorder i j) :
    (step m s).losses i j = s.losses i j +
      (Jx m ((step m s).Bz) i j ^ 2 + Jy m ((step m s).Bz) i j ^ 2) * dt m / m.sigma ∧
    (step m s).snap = some (Jx m ((step m s).Bz), Jy m ((step m s).Bz)) ∧
    (step m s).Bz i j = B0 * Real.sin (omega * s.t) := by
  refine ⟨rfl, ?_, ?_⟩
  · simp only [step]
    rw [if_pos ⟨hsnap, hcond⟩]
  · simp only [step, applyBorder]
    rw [if_pos hb]

/-- Witness for C10 at the iron material, the initial state and border
cell (0,0). -/
theorem spec_derived_from_post_overwrite_witness :
    (step ferro init).losses 0 0 = init.losses 0 0 +
      (Jx ferro ((step ferro init).Bz) 0 0 ^ 2 + Jy ferro ((step ferro init).Bz) 0 0 ^ 2) *
        dt ferro / ferro.sigma ∧
    (step ferro init).snap =
      some (Jx ferro ((step ferro init).Bz), Jy ferro ((step ferro init).Bz)) ∧
    (step ferro init).Bz 0 0 = B0 * Real.sin (omega * init.t) :=
  spec_derived_from_post_overwrite ferro init 0 0 rfl snapCond_ferro_zero (Or.inl rfl)

lemma T_eq : T = 1 / 60 := rfl

lemma omega_pos : 0 < omega := by
  rw [omega_eq]
  have := Real.pi_pos
  nlinarith

lemma omega_T : omega * T = 2 * Real.pi := by
  unfold omega T f
  field_simp

lemma n_steps_eq_floor (m : Material) (hd : 0 < dt m) :
    n_steps m = ⌊T / dt m⌋ := by
  unfold n_steps pyInt
  rw [if_pos (div_nonneg T_pos.le hd.le)]

lemma pyMod_eq_self {x y : ℝ} (hx : 0 ≤ x) (hy : 0 < y) (hxy : x < y) :
    pyMod x y = x := by
  unfold pyMod
  have h0 : ⌊x / y⌋ = 0 := by
    rw [Int.floor_eq_zero_iff]
    exact Set.mem_Ico.mpr ⟨div_nonneg hx hy.le, (div_lt_one hy).mpr hxy⟩
  rw [h0]
  simp

lemma stateAt_succ (m : Material) (n : ℕ) :
    stateAt m (n + 1) = step m (stateAt m n) := by
  unfold stateAt
  rw [Function.iterate_succ_apply']

lemma t_at (m : Material) (n : ℕ) : (stateAt m n).t = n * dt m := by
  induction n with
  | zero => simp [stateAt, init]
  | succ k ih =>
    rw [stateAt_succ]
    show (stateAt m k).t + dt m = _
    rw [ih]
    push_cast
    ring

open Classical in
lemma step_snap (m : Material) (s : State) :
    (step m s).snap =
      if s.snap = none ∧ snapCond m s.t
      then some (Jx m ((step m s).Bz), Jy m ((step m s).Bz))
      else s.snap := rfl

lemma snap_none_of_no_cond (m : Material) (n : ℕ)
    (h : ∀ k < n, ¬ snapCond m (k * dt m)) : (stateAt m n).snap = none := by
  induction n with
  | zero => rfl
  | succ k ih =>
    have hk : (stateAt m k).snap = none :=
      ih (fun k' hk' => h k' (hk'.trans (Nat.lt_succ_self k)))
    rw [stateAt_succ, step_snap, if_neg, hk]
    rintro ⟨-, hc⟩
    rw [t_at] at hc
    exact h k (Nat.lt_succ_self k) hc

lemma snap_captured (m : Material) (K : ℕ)
    (hK : snapCond m (K * dt m)) (hmin : ∀ k < K, ¬ snapCond m (k * dt m)) :
    ∀ n, K < n →
      (stateAt m n).snap =
        some (Jx m ((stateAt m (K + 1)).Bz), Jy m ((stateAt m (K + 1)).Bz)) := by
  have hnone : (stateAt m K).snap = none := snap_none_of_no_cond m K hmin
  have hcond : snapCond m (stateAt m K).t := by rw [t_at]; exact hK
  have base : (stateAt m (K + 1)).snap =
      some (Jx m ((stateAt m (K + 1)).Bz), Jy m ((stateAt m (K + 1)).Bz)) := by
    rw [stateAt_succ, step_snap, if_pos ⟨hnone, hcond⟩]
  intro n
  induction n with
  | zero => omega
  | succ p ih =>
    intro hn
    rcases Nat.lt_succ_iff_lt_or_eq.mp hn with h | h
    · have hp := ih h
      rw [stateAt_succ, step_snap, if_neg]
      · exact hp
      · rintro ⟨h0, -⟩
        rw [hp] at h0
        exact Option.noConfusion h0
    · subst h
      exact base

lemma snapCond_exists (m : Material) (hd : 0 < dt m) (hT : dt m ≤ T) :
    ∃ k : ℕ, k < (n_steps m).toNat ∧ snapCond m (k * dt m) := by
  have hT4 : 0 ≤ T / (4 * dt m) := div_nonneg T_pos.le (by linarith)
  have hz0 : 0 ≤ ⌊T / (4 * dt m)⌋ := Int.floor_nonneg.mpr hT4
  have hzle : ((⌊T / (4 * dt m)⌋ : ℤ) : ℝ) ≤ T / (4 * dt m) := Int.floor_le _
  have hzlt : T / (4 * dt m) < ⌊T / (4 * dt m)⌋ + 1 := Int.lt_floor_add_one _
  have h1 : (1 : ℤ) ≤ ⌊T / dt m⌋ := by
    rw [Int.le_floor]
    push_cast
    exact (one_le_div hd).mpr hT
  refine ⟨(⌊T / (4 * dt m)⌋).toNat, ?_, ?_⟩
  · have h2 : T / dt m < ⌊T / dt m⌋ + 1 := Int.lt_floor_add_one _
    have h3 : (1 : ℝ) ≤ ((⌊T / dt m⌋ : ℤ) : ℝ) := by exact_mod_cast h1
    have h4 : T / (4 * dt m) = (T / dt m) / 4 := by
      rw [div_div, mul_comm]
    have hlt : ((⌊T / (4 * dt m)⌋ : ℤ) : ℝ) < ((⌊T / dt m⌋ : ℤ) : ℝ) := by
      calc ((⌊T / (4 * dt m)⌋ : ℤ) : ℝ) ≤ T / (4 * dt m) := hzle
        _ = (T / dt m) / 4 := h4
        _ < (((⌊T / dt m⌋ : ℤ) : ℝ) + 1) / 4 := by linarith
        _ ≤ ((⌊T / dt m⌋ : ℤ) : ℝ) := by linarith
    have hzn : ⌊T / (4 * dt m)⌋ < ⌊T / dt m⌋ := by exact_mod_cast hlt
    rw [n_steps_eq_floor m hd]
    exact (Int.toNat_lt_toNat (by omega)).mpr hzn
  · have hcast : (((⌊T / (4 * dt m)⌋).toNat : ℕ) : ℝ) = ((⌊T / (4 * dt m)⌋ : ℤ) : ℝ) := by
      exact_mod_cast Int.toNat_of_nonneg hz0
    have hmul : (T / (4 * dt m)) * dt m = T / 4 := by
      field_simp
      ring
    have hkd_le : (((⌊T / (4 * dt m)⌋).toNat : ℕ) : ℝ) * dt m ≤ T / 4 := by
      rw [hcast]
      have h5 := mul_le_mul_of_nonneg_right hzle hd.le
      rw [hmul] at h5
      exact h5
    have hkd_gt : T / 4 - (((⌊T / (4 * dt m)⌋).toNat : ℕ) : ℝ) * dt m < dt m := by
      rw [hcast]
      have h5 := mul_lt_mul_of_pos_right hzlt hd
      rw [hmul] at h5
      nlinarith
    have hw : 0 < omega := omega_pos
    have hpi : 0 < Real.pi := Real.pi_pos
    have h8 : omega * (T / 4) = Real.pi / 2 := by
      rw [← mul_div_assoc, omega_T]
      ring
    have h10 : omega * ((((⌊T / (4 * dt m)⌋).toNat : ℕ) : ℝ) * dt m) ≤ Real.pi / 2 := by
      have := mul_le_mul_of_nonneg_left hkd_le hw.le
      rw [h8] at this
      exact this
    have hnn : 0 ≤ omega * ((((⌊T / (4 * dt m)⌋).toNat : ℕ) : ℝ) * dt m) :=
      mul_nonneg hw.le (mul_nonneg (Nat.cast_nonneg _) hd.le)
    unfold snapCond
    rw [pyMod_eq_self hnn (by nlinarith) (by nlinarith)]
    rw [abs_of_nonpos (by linarith)]
    have h9 : omega * (T / 4 - (((⌊T / (4 * dt m)⌋).toNat : ℕ) : ℝ) * dt m) =
        Real.pi / 2 - omega * ((((⌊T / (4 * dt m)⌋).toNat : ℕ) : ℝ) * dt m) := by
      rw [mul_sub, h8]
    have h7 := mul_lt_mul_of_pos_left hkd_gt hw
    rw [h9] at h7
    nlinarith [mul_pos hw hd]

/-- C4: for a run whose step size fits in one period, there is a first
step whose start-of-step phase lies in the snapshot tolerance window; the
snapshot is captured exactly there (it is the current-density pair of that
step's field), it is the run's final snapshot, and it is never overwritten
at any later step. -/
theorem spec_snapshot_unique (m : Material)
    (hσ : 0 < m.sigma) (hμ : 0 < m.mu_r) (hT : dt m ≤ T) :
    ∃ K : ℕ, K < (n_steps m).toNat ∧ snapCond m (K * dt m) ∧
      (∀ k < K, ¬ snapCond m (k * dt m)) ∧
      (run m).snap =
        some (Jx m ((stateAt m (K + 1)).Bz), Jy m ((stateAt m (K + 1)).Bz)) ∧
      ∀ n, K < n → (stateAt m n).snap =
        some (Jx m ((stateAt m (K + 1)).Bz), Jy m ((stateAt m (K + 1)).Bz)) := by
  obtain ⟨k₀, hk₀n, hk₀c⟩ := snapCond_exists m (dt_pos m hσ hμ) hT
  have hne : {k : ℕ | snapCond m (k * dt m)}.Nonempty := ⟨k₀, hk₀c⟩
  have hmem : sInf {k : ℕ | snapCond m (k * dt m)} ∈ {k : ℕ | snapCond m (k * dt m)} :=
    Nat.sInf_mem hne
  have hle : sInf {k : ℕ | snapCond m (k * dt m)} ≤ k₀ := Nat.sInf_le hk₀c
  have hmin : ∀ k < sInf {k : ℕ | snapCond m (k * dt m)}, ¬ snapCond m (k * dt m) :=
    fun k hk => Nat.not_mem_of_lt_sInf hk
  have hcap := snap_captured m _ hmem hmin
  exact ⟨sInf {k : ℕ | snapCond m (k * dt m)}, lt_of_le_of_lt hle hk₀n, hmem, hmin,
    hcap _ (lt_of_le_of_lt hle hk₀n), hcap⟩

lemma dt_ferro_le_T : dt ferro ≤ T := by
  rw [dt_ferro_eq, T_eq]
  have := Real.pi_le_four
  nlinarith

/-- Witness for C4 at the iron material. -/
theorem spec_snapshot_unique_witness :
    (0:ℝ) < ferro.sigma ∧ (0:ℝ) < ferro.mu_r ∧ dt ferro ≤ T ∧
    (∃ K : ℕ, K < (n_steps ferro).toNat ∧ snapCond ferro (K * dt ferro) ∧
      (∀ k < K, ¬ snapCond ferro (k * dt ferro)) ∧
      (run ferro).snap =
        some (Jx ferro ((stateAt ferro (K + 1)).Bz), Jy ferro ((stateAt ferro (K + 1)).Bz)) ∧
      ∀ n, K < n → (stateAt ferro n).snap =
        some (Jx ferro ((stateAt ferro (K + 1)).Bz), Jy ferro ((stateAt ferro (K + 1)).Bz))) :=
  ⟨by norm_num [ferro], by norm_num [ferro], dt_ferro_le_T,
   spec_snapshot_unique ferro (by norm_num [ferro]) (by norm_num [ferro]) dt_ferro_le_T⟩

/-- Analytic skin depth `delta = sqrt(2/(omega*mu*sigma))` (main.py line 67). -/
noncomputable def delta (m : Material) : ℝ := Real.sqrt (2 / (omega * mu m * m.sigma))

lemma dt_cobre_eq : dt cobre = 1.044e-5 * Real.pi := by
  have hxy : dx = dy := rfl
  rw [dt, hxy, min_self]
  unfold mu mu0 cobre dy Ly
  norm_num
  ring

lemma n_steps_ferro : n_steps ferro = 2 := by
  have hd : 0 < dt ferro := by
    rw [dt_ferro_eq]
    positivity
  rw [n_steps_eq_floor ferro hd, dt_ferro_eq, T_eq]
  have hπ1 := Real.pi_gt_d6
  have hπ2 := Real.pi_le_four
  have hpos : (0:ℝ) < 1.8e-3 * Real.pi := by positivity
  rw [Int.floor_eq_iff]
  constructor
  · rw [le_div_iff₀ hpos]
    push_cast
    nlinarith
  · rw [div_lt_iff₀ hpos]
    push_cast
    nlinarith

lemma n_steps_cobre : n_steps cobre = 508 := by
  have hd : 0 < dt cobre := by
    rw [dt_cobre_eq]
    positivity
  rw [n_steps_eq_floor cobre hd, dt_cobre_eq, T_eq]
  have hπ1 := Real.pi_gt_d6
  have hπ2 := Real.pi_lt_d6
  have hpos : (0:ℝ) < 1.044e-5 * Real.pi := by positivity
  rw [Int.floor_eq_iff]
  constructor
  · rw [le_div_iff₀ hpos]
    push_cast
    nlinarith
  · rw [div_lt_iff₀ hpos]
    push_cast
    nlinarith

lemma delta_ferro_eq : delta ferro = Real.sqrt (1 / (240000 * Real.pi ^ 2)) := by
  unfold delta mu mu0 ferro
  rw [omega_eq]
  congr 1
  have := Real.pi_pos
  field_simp
  ring

lemma delta_cobre_eq : delta cobre = Real.sqrt (1 / (1392 * Real.pi ^ 2)) := by
  unfold delta mu mu0 cobre
  rw [omega_eq]
  congr 1
  have := Real.pi_pos
  field_simp
  ring

lemma delta_ferro_gt : 1e-4 < delta ferro := by
  rw [delta_ferro_eq]
  apply (Real.lt_sqrt (by norm_num)).mpr
  have h4 := Real.pi_le_four
  have hπ := Real.pi_pos
  rw [lt_div_iff₀ (by positivity)]
  nlinarith

lemma delta_ferro_lt : delta ferro < 1e-3 := by
  rw [delta_ferro_eq]
  apply (Real.sqrt_lt' (by norm_num)).mpr
  have h3 := Real.pi_gt_three
  rw [div_lt_iff₀ (by positivity)]
  nlinarith

lemma delta_ferro_lt_cobre : 10 * delta ferro < delta cobre := by
  rw [delta_ferro_eq, delta_cobre_eq]
  have hπ := Real.pi_pos
  have hsq : (0:ℝ) < Real.pi ^ 2 := by positivity
  have h10 : (10:ℝ) * Real.sqrt (1 / (240000 * Real.pi ^ 2)) =
      Real.sqrt (100 / (240000 * Real.pi ^ 2)) := by
    rw [show (100:ℝ) / (240000 * Real.pi ^ 2) = 100 * (1 / (240000 * Real.pi ^ 2)) by ring]
    rw [Real.sqrt_mul (by norm_num)]
    rw [show (100:ℝ) = 10 ^ 2 by norm_num, Real.sqrt_sq (by norm_num)]
  rw [h10]
  apply Real.sqrt_lt_sqrt (by positivity)
  rw [div_lt_div_iff₀ (by positivity) (by positivity)]
  nlinarith

/-- C7 counterexample: with the configured grid and frequency, the iron
material (`sigma = 1.0e7`, `mu_r = 1000`) runs only 2 steps — not "in the
low thousands" — and the copper material (`sigma = 5.8e7`, `mu_r = 1`)
runs 508 steps, more than iron rather than fewer: `dt` grows with
`mu*sigma`, so the high-permeability material takes the fewest steps. -/
theorem spec_scenario_counterexample :
    n_steps ferro = 2 ∧ n_steps cobre = 508 ∧
    ¬(1000 ≤ n_steps ferro) ∧ ¬(n_steps cobre < n_steps ferro) := by
  refine ⟨n_steps_ferro, n_steps_cobre, ?_, ?_⟩
  · rw [n_steps_ferro]
    norm_num
  · rw [n_steps_ferro, n_steps_cobre]
    norm_num

/-- C7 amended: iron's analytic skin depth is of order 1e-4 to 1e-3 m and
copper's is markedly (more than tenfold) larger, as claimed; but iron's
step count is 2 (single digits, because `dt = 0.2·mu·sigma·min(dx,dy)²`
grows with `mu·sigma`), and copper takes 508 steps — more than iron, not
fewer. -/
theorem spec_scenario_amended :
    1e-4 < delta ferro ∧ delta ferro < 1e-3 ∧ n_steps ferro = 2 ∧
    10 * delta ferro < delta cobre ∧ n_steps cobre = 508 ∧
    n_steps ferro < n_steps cobre := by
  refine ⟨delta_ferro_gt, delta_ferro_lt, n_steps_ferro, delta_ferro_lt_cobre,
    n_steps_cobre, ?_⟩
  rw [n_steps_ferro, n_steps_cobre]
  norm_num

/-- A material violating the spec's validity requirement: `sigma = -1`. -/
noncomputable def invalidMat : Material := ⟨-1, 1⟩

lemma dt_invalid_eq : dt invalidMat = -(1.8e-13 * Real.pi) := by
  have hxy : dx = dy := rfl
  rw [dt, hxy, min_self]
  unfold mu mu0 invalidMat dy Ly
  norm_num
  ring

lemma dt_invalid_neg : dt invalidMat < 0 := by
  rw [dt_invalid_eq]
  have := Real.pi_pos
  nlinarith

lemma n_steps_invalid_toNat : (n_steps invalidMat).toNat = 0 := by
  have hx : T / dt invalidMat < 0 := div_neg_of_pos_of_neg T_pos dt_invalid_neg
  unfold n_steps pyInt
  rw [if_neg (not_le.mpr hx)]
  exact Int.toNat_of_nonpos (Int.ceil_le.mpr (by exact_mod_cast hx.le))

lemma run_invalid_eq_init : run invalidMat = init := by
  unfold run
  rw [n_steps_invalid_toNat]
  rfl

/-- C8 (code evaluation at the failing input): the code contains no
MaterialSpec validation and no InvalidMaterial error.  With
`sigma = -1 ≤ 0` it happily computes a negative `dt`, truncates
`n_steps` to zero and completes the run as a no-op instead of rejecting
the material (with `sigma = 0` Python instead raises ZeroDivisionError
at the `alpha` computation). -/
theorem spec_invalid_material_code_eval :
    invalidMat.sigma ≤ 0 ∧ dt invalidMat < 0 ∧
    (n_steps invalidMat).toNat = 0 ∧ run invalidMat = init :=
  ⟨by norm_num [invalidMat], dt_invalid_neg, n_steps_invalid_toNat, run_invalid_eq_init⟩

/-- The runtime failure Python raises when summarising a run whose
snapshot was never captured: `snap_Jx` is still `None`, and
`np.sqrt(None**2 + None**2)` raises TypeError. -/
inductive PyError
  | typeError

/-- `J_mag = np.sqrt(snap_Jx**2 + snap_Jy**2) / 1e6` (main.py line 65),
a fallible computation: it operates on the captured snapshot and raises
a TypeError when no snapshot exists. -/
noncomputable def J_mag (s : State) : Except PyError Grid :=
  match s.snap with
  | none => .error .typeError
  | some (jx, jy) => .ok fun i j => Real.sqrt (jx i j ^ 2 + jy i j ^ 2) / 1e6

/-- C9 (code evaluation at the failing input): for a run that never
satisfies the snapshot window (here the degenerate zero-step run of
`invalidMat`), summarization does not signal any MissingSnapshot error —
no such error exists in the code; it fails with the unhandled Python
TypeError from `None**2` in the `J_mag` computation.  (It is true that
no undefined snapshot field reaches the result bundle, but only because
the crash happens first.) -/
theorem spec_missing_snapshot_code_eval :
    (run invalidMat).snap = none ∧
    J_mag (run invalidMat) = .error PyError.typeError := by
  rw [run_invalid_eq_init]
  exact ⟨rfl, rfl⟩

end Foucault
